import Mathlib

/-!
Verification of the Urdle core: guess evaluation, daily word selection,
persistence/restoration, and the submission state machine.

The definitions below are a shallow embedding of the JavaScript source
(game logic file and js/daily.js).  Strings are modelled as lists of
letters (the result of Array.from splitting), JavaScript objects used as
frequency tables are modelled as functions with a default of 0, and the
possibly-undefined result of out-of-range indexing is modelled with
Option.  Definitions whose doc comment says they follow the spec text
are reference renderings of the natural-language specification, used to
compare the code against the spec.
-/

namespace Urdle

/-- Tile status, the three string constants of the source. -/
inductive Status where
  | correct
  | present
  | absent
deriving DecidableEq, Repr

/-- A letter, one element of the array produced by splitUrdu (Array.from). -/
abbrev Letter := Char

/-- A word as the game manipulates it: the list of its letters. -/
abbrev Word := List Letter

/-- Source constant WORD_LENGTH = 4. -/
def WORD_LENGTH : Nat := 4

/-- Source constant MAX_ATTEMPTS = 5. -/
def MAX_ATTEMPTS : Nat := 5

/-- Frequency map of the secret letters, from evaluateGuess:
for each letter of the secret, freq[letter] = (freq[letter] or 0) + 1.
The JavaScript object is modelled as a total function with default 0;
the key produced by an out-of-range (undefined) index is the none key,
which this loop never increments. -/
def buildFreq (secret : Word) : Option Letter → Int :=
  secret.foldl (fun f c => fun x => if x = some c then f x + 1 else f x) (fun _ => 0)

/-- The statement freq[k]-- of the source: decrement one key of the map. -/
def decrKey (f : Option Letter → Int) (k : Option Letter) : Option Letter → Int :=
  fun x => if x = k then f x - 1 else f x

/-- One iteration of the first pass of evaluateGuess: if
guessLetters[i] === secretLetters[i] then result[i] = correct and
freq[guessLetters[i]]--.  Out-of-range indexing yields undefined, hence
the comparison of optional letters. -/
def pass1Step (secret guess : Word) (st : List Status × (Option Letter → Int)) (i : Nat) :
    List Status × (Option Letter → Int) :=
  if guess[i]? = secret[i]? then
    (st.1.set i Status.correct, decrKey st.2 guess[i]?)
  else st

/-- One iteration of the second pass of evaluateGuess: skip positions
already marked correct; if freq[guessLetters[i]] is truthy and greater
than 0 then result[i] = present and freq[guessLetters[i]]--.  The
JavaScript truthiness test combined with the comparison is equivalent to
the value being a positive integer. -/
def pass2Step (guess : Word) (st : List Status × (Option Letter → Int)) (i : Nat) :
    List Status × (Option Letter → Int) :=
  if st.1[i]? = some Status.correct then st
  else if 0 < st.2 guess[i]? then
    (st.1.set i Status.present, decrKey st.2 guess[i]?)
  else st

/-- evaluateGuess of the source: result initialised to WORD_LENGTH
copies of absent, a frequency map of the secret letters, then the two
passes, each a loop over indices 0 .. WORD_LENGTH - 1. -/
def evaluateGuess (secret guess : Word) : List Status :=
  ((List.range WORD_LENGTH).foldl (pass2Step guess)
    ((List.range WORD_LENGTH).foldl (pass1Step secret guess)
      (List.replicate WORD_LENGTH Status.absent, buildFreq secret))).1

/-- Multiset of the secret letters, as the spec's reference evaluation
algorithm states it: a map from letter to remaining count, keyed by the
letters themselves (the spec presupposes words of letters, no undefined
keys).  Int valued so that the decrement of the spec is literal. -/
def specMultiset (secret : Word) : Letter → Int :=
  fun c => (secret.count c : Int)

/-- Pass 1 of the spec's reference algorithm at position i: for each
position i where guess[i] equals secret[i], mark correct and decrement
that letter's remaining count. -/
def specPass1Step (secret guess : Word) (st : List Status × (Letter → Int)) (i : Nat) :
    List Status × (Letter → Int) :=
  match guess[i]?, secret[i]? with
  | some g, some s =>
      if g = s then
        (st.1.set i Status.correct, fun c => if c = g then st.2 c - 1 else st.2 c)
      else st
  | _, _ => st

/-- Pass 2 of the spec's reference algorithm at position i: for each
position not already marked correct, if the guess letter's remaining
count is greater than 0, mark present and decrement; otherwise leave it
absent. -/
def specPass2Step (guess : Word) (st : List Status × (Letter → Int)) (i : Nat) :
    List Status × (Letter → Int) :=
  if st.1[i]? = some Status.correct then st
  else
    match guess[i]? with
    | some g =>
        if 0 < st.2 g then
          (st.1.set i Status.present, fun c => if c = g then st.2 c - 1 else st.2 c)
        else st
    | none => st

/-- The spec's two-pass reference evaluation: build the multiset from
the secret's letters, run pass 1 over every position, then run pass 2
left to right over every position, pass 1 entirely preceding pass 2. -/
def evaluateSpec (secret guess : Word) : List Status :=
  ((List.range WORD_LENGTH).foldl (specPass2Step guess)
    ((List.range WORD_LENGTH).foldl (specPass1Step secret guess)
      (List.replicate WORD_LENGTH Status.absent, specMultiset secret))).1

/-- The source's all-correct test: evaluation.every(s => s === 'correct'). -/
def allCorrect (e : List Status) : Bool :=
  e.all (fun s => s = Status.correct)

/-- The mutable engine state of the source: attempts (guess strings),
evaluations, currentRow, gameOver, won. -/
structure GameState where
  attempts : List Word
  evaluations : List (List Status)
  currentRow : Nat
  gameOver : Bool
  won : Bool
deriving DecidableEq, Repr

/-- The fresh state the script starts from: empty attempts and
evaluations, row 0, not over, not won. -/
def initialState : GameState :=
  { attempts := [], evaluations := [], currentRow := 0, gameOver := false, won := false }

/-- The three user-facing rejection outcomes of a submission. -/
inductive RejectionReason where
  | wrongLength
  | notInCatalog
  | gameAlreadyOver
deriving DecidableEq, Repr

/-- Result of one submission: a rejection, or acceptance carrying the
computed evaluation. -/
inductive SubmitOutcome where
  | rejected (r : RejectionReason)
  | accepted (e : List Status)
deriving DecidableEq, Repr

/-- One submission, the composition of the gameOver guard of handleKey
with submitGuess: a terminal game ignores the enter key; then
submitGuess rejects a guess whose letter count differs from
WORD_LENGTH, then a guess not in the WORDS catalog; otherwise it
evaluates the guess, increments currentRow, appends the guess and its
evaluation, and decides win (all correct), loss (currentRow has reached
MAX_ATTEMPTS) or continuation. -/
def submit (catalog : List Word) (secret : Word) (s : GameState) (guess : Word) :
    SubmitOutcome × GameState :=
  if s.gameOver then (.rejected .gameAlreadyOver, s)
  else if guess.length ≠ WORD_LENGTH then (.rejected .wrongLength, s)
  else if guess ∉ catalog then (.rejected .notInCatalog, s)
  else
    let evaluation := evaluateGuess secret guess
    let attempts := s.attempts ++ [guess]
    let evaluations := s.evaluations ++ [evaluation]
    let currentRow := s.currentRow + 1
    if allCorrect evaluation then
      (.accepted evaluation,
        { attempts := attempts, evaluations := evaluations, currentRow := currentRow,
          gameOver := true, won := true })
    else if MAX_ATTEMPTS ≤ currentRow then
      (.accepted evaluation,
        { attempts := attempts, evaluations := evaluations, currentRow := currentRow,
          gameOver := true, won := false })
    else
      (.accepted evaluation,
        { attempts := attempts, evaluations := evaluations, currentRow := currentRow,
          gameOver := s.gameOver, won := s.won })

/-- All-correct test of the last evaluation of a state, or false when
there is none. -/
def lastAllCorrect (s : GameState) : Bool :=
  match s.evaluations.getLast? with
  | some e => allCorrect e
  | none => false

/-- The GameState invariant of the spec: currentRow mirrors the number
of attempts, every recorded evaluation is the evaluation of its guess,
at most MAX_ATTEMPTS attempts, gameOver holds exactly when the last
evaluation is all-correct or the attempt limit is reached, and won
holds exactly when the game is over with an all-correct last
evaluation. -/
def Inv (secret : Word) (s : GameState) : Prop :=
  s.currentRow = s.attempts.length ∧
  s.evaluations = s.attempts.map (evaluateGuess secret) ∧
  s.attempts.length ≤ MAX_ATTEMPTS ∧
  (s.gameOver = true ↔ (lastAllCorrect s = true ∨ s.attempts.length = MAX_ATTEMPTS)) ∧
  (s.won = true ↔ (s.gameOver = true ∧ lastAllCorrect s = true))

/-- A calendar date, the YYYY-MM-DD day key of js/daily.js. -/
structure DayKey where
  year : Int
  month : Nat
  day : Nat
deriving DecidableEq, Repr

/-- Day count of a Gregorian calendar date from the epoch 1970-01-01,
the value of Math.floor(new Date(dayKey).getTime() / 86400000) for a
YYYY-MM-DD string: parsing such a string yields midnight UTC of that
date, so the quotient is exactly the calendar day number.  Computed by
the standard civil-calendar formula. -/
def daysFromCivil (dk : DayKey) : Int :=
  let y : Int := if dk.month ≤ 2 then dk.year - 1 else dk.year
  let era : Int := Int.fdiv y 400
  let yoe : Nat := (y - era * 400).toNat
  let mp : Nat := if dk.month ≤ 2 then dk.month + 9 else dk.month - 3
  let doy : Nat := (153 * mp + 2) / 5 + dk.day - 1
  let doe : Nat := yoe * 365 + yoe / 4 - yoe / 100 + doy
  era * 146097 + (doe : Int) - 719468

/-- getDailyWord of js/daily.js, with the ambient WORDS list and the
Eastern-time day key as parameters: dayIndex = the day count of the day
key, index = dayIndex % WORDS.length (JavaScript remainder, sign of the
dividend), and WORDS[index].  JavaScript indexing with NaN (empty list,
remainder by 0) or with a negative index yields undefined, modelled as
none. -/
def getDailyWord (catalog : List Word) (dk : DayKey) : Option Word :=
  if catalog.length = 0 then none
  else if Int.tmod (daysFromCivil dk) catalog.length < 0 then none
  else catalog[(Int.tmod (daysFromCivil dk) catalog.length).toNat]?

/-- The fatal error the spec prescribes for an empty catalog. -/
inductive ConfigurationError where
  | configurationError
deriving DecidableEq, Repr

/-- getDailyWord with its JavaScript exception channel made explicit:
the function body contains no throw and array indexing never throws, so
it always returns normally; an error value would model a thrown
exception. -/
def getDailyWordE (catalog : List Word) (dk : DayKey) :
    Except ConfigurationError (Option Word) :=
  .ok (getDailyWord catalog dk)

/-- The persisted record of js/daily.js: date, attempts (guess
strings), gameOver, won. -/
structure PersistRecord where
  date : DayKey
  attempts : List Word
  gameOver : Bool
  won : Bool
deriving DecidableEq, Repr

/-- Contents of the localStorage slot as loadDailyState observes them:
no record at all (getItem yields null), a record JSON.parse throws on
(caught, yielding null), or a parsed record. -/
inductive RawStorage where
  | empty
  | corrupt
  | record (r : PersistRecord)
deriving DecidableEq, Repr

/-- loadDailyState of js/daily.js: null when storage is empty, null
when parsing throws (the catch branch), null when the record's date
differs from today (stale), otherwise the record. -/
def loadDailyState (st : RawStorage) (today : DayKey) : Option PersistRecord :=
  match st with
  | .empty => none
  | .corrupt => none
  | .record r => if r.date ≠ today then none else some r

/-- saveDailyState of js/daily.js: the record written to storage. -/
def saveDailyState (today : DayKey) (attempts : List Word) (gameOver won : Bool) :
    PersistRecord :=
  { date := today, attempts := attempts, gameOver := gameOver, won := won }

/-- restoreState of the source: attempts, gameOver and won are taken
from the saved record; currentRow is the number of attempts; the
evaluations are re-derived by running evaluateGuess on every saved
guess against today's secret word. -/
def restoreState (secret : Word) (saved : PersistRecord) : GameState :=
  { attempts := saved.attempts
    evaluations := saved.attempts.map (evaluateGuess secret)
    currentRow := saved.attempts.length
    gameOver := saved.gameOver
    won := saved.won }

/-- All-correct test of the replayed evaluation of the last saved
guess, following the spec's restoration section: the evaluation is
re-derived with evaluate against today's secret word. -/
def replayLastCorrect (secret : Word) (attempts : List Word) : Bool :=
  match attempts.getLast? with
  | some g => allCorrect (evaluateGuess secret g)
  | none => false

/-- The isOver flag as the spec's restoration section requires it to be
reconstructed from the replay: the last replayed evaluation is
all-correct or the attempt limit is reached. -/
def replayIsOver (secret : Word) (attempts : List Word) : Bool :=
  replayLastCorrect secret attempts || (attempts.length == MAX_ATTEMPTS)

/-- The won flag as the spec's restoration section requires it to be
reconstructed from the replay: over with an all-correct last replayed
evaluation. -/
def replayWon (secret : Word) (attempts : List Word) : Bool :=
  replayIsOver secret attempts && replayLastCorrect secret attempts

/-- Source constant HINT_MAGIC_NUMBER = 18. -/
def HINT_MAGIC_NUMBER : Nat := 18

/-- The toast messages handleHintClick can show. -/
inductive Toast where
  | teaser
  | reveal (msg : List Char)
  | encourage
deriving DecidableEq, Repr

/-- The revealing toast text of handleHintClick: 'jawab is ' followed
by the secret word. -/
def revealMsg (secretWord : Word) : List Char :=
  "jawab is ".toList ++ secretWord

/-- handleHintClick of the source: increment the click counter; at
exactly HINT_MAGIC_NUMBER show the teaser; above it show the message
containing the secret word and reset the counter to 0; otherwise show
the encouragement.  Returns the new counter and the toast shown. -/
def handleHintClick (secretWord : Word) (hintClickCount : Nat) : Nat × Toast :=
  let c := hintClickCount + 1
  if c = HINT_MAGIC_NUMBER then (c, Toast.teaser)
  else if HINT_MAGIC_NUMBER < c then (0, Toast.reveal (revealMsg secretWord))
  else (c, Toast.encourage)

end Urdle

namespace Urdle

example : evaluateGuess "abcd".toList "abcd".toList =
    [Status.correct, Status.correct, Status.correct, Status.correct] := by decide

example : evaluateGuess "aabc".toList "aaaa".toList =
    [Status.correct, Status.correct, Status.absent, Status.absent] := by decide

example : evaluateGuess "abcd".toList "dcba".toList =
    [Status.present, Status.present, Status.present, Status.present] := by decide

example : evaluateGuess "abcd".toList "xaad".toList =
    [Status.absent, Status.present, Status.absent, Status.correct] := by decide

example : evaluateGuess "abcd".toList "ab".toList =
    [Status.correct, Status.correct, Status.absent, Status.absent] := by decide

example : evaluateSpec "aabc".toList "aaaa".toList =
    [Status.correct, Status.correct, Status.absent, Status.absent] := by decide

example : evaluateSpec "abcd".toList "xaad".toList =
    evaluateGuess "abcd".toList "xaad".toList := by decide

example : daysFromCivil { year := 1970, month := 1, day := 1 } = 0 := by decide

example : daysFromCivil { year := 2026, month := 10, day := 11 } = 20737 := by decide

example : daysFromCivil { year := 1969, month := 12, day := 31 } = -1 := by decide

example : getDailyWord ["abcd".toList, "wxyz".toList] { year := 2026, month := 10, day := 11 } =
    some "wxyz".toList := by decide

/-! Helper lemmas. -/

lemma range_word_length : List.range WORD_LENGTH = [0, 1, 2, 3] := rfl

lemma word_length_four {S : Word} (h : S.length = WORD_LENGTH) :
    ∃ a b c d, S = [a, b, c, d] := by
  match S, h with
  | [a, b, c, d], _ => exact ⟨a, b, c, d, rfl⟩

/-! Claim theorems. -/

/-- C8: for every word S of length N, evaluating S against itself as
the secret yields an Evaluation in which every position is correct. -/
theorem c8_self_evaluation_all_correct (S : Word) (h : S.length = WORD_LENGTH) :
    evaluateGuess S S = List.replicate WORD_LENGTH Status.correct := by
  obtain ⟨a, b, c, d, rfl⟩ := word_length_four h
  have hr : List.range 4 = [0, 1, 2, 3] := rfl
  simp [evaluateGuess, WORD_LENGTH, hr, pass1Step, pass2Step, decrKey,
    List.getElem?_cons_zero, List.getElem?_cons_succ]

/-- Witness for C8 at a concrete word. -/
theorem c8_witness :
    ("abcd".toList : Word).length = WORD_LENGTH ∧
    evaluateGuess "abcd".toList "abcd".toList = List.replicate WORD_LENGTH Status.correct := by
  exact ⟨by decide, c8_self_evaluation_all_correct "abcd".toList (by decide)⟩

/-- C2 counterexample: restoreState copies the persisted gameOver/won
flags instead of reconstructing them from the replay — a record whose
flags claim a win over a single wrong guess is restored as won, while
the replay-derived flags are false. -/
theorem c2_counterexample :
    (restoreState "abcd".toList
      { date := { year := 2026, month := 10, day := 11 },
        attempts := ["dcba".toList], gameOver := true, won := true }).won = true ∧
    (restoreState "abcd".toList
      { date := { year := 2026, month := 10, day := 11 },
        attempts := ["dcba".toList], gameOver := true, won := true }).gameOver = true ∧
    replayWon "abcd".toList ["dcba".toList] = false ∧
    replayIsOver "abcd".toList ["dcba".toList] = false := by
  decide

/-- C2 as amended: restoration re-derives every evaluation by replaying
evaluateGuess against today's secret word, takes gameOver and won
directly from the persisted record, and the persist-reload roundtrip
yields the same attempts and the same flags as before persistence. -/
theorem c2_restoration_replay_and_roundtrip (secret : Word) (today : DayKey)
    (atts : List Word) (go w : Bool) :
    restoreState secret (saveDailyState today atts go w) =
      { attempts := atts, evaluations := atts.map (evaluateGuess secret),
        currentRow := atts.length, gameOver := go, won := w } ∧
    loadDailyState (.record (saveDailyState today atts go w)) today =
      some (saveDailyState today atts go w) := by
  exact ⟨rfl, by simp [loadDailyState, saveDailyState]⟩

/-- C5 counterexample: with an empty catalog the daily word selection
returns normally with undefined (none); it does not fail with a
ConfigurationError. -/
theorem c5_counterexample :
    getDailyWordE [] { year := 2026, month := 10, day := 11 } = .ok none ∧
    getDailyWordE [] { year := 2026, month := 10, day := 11 } ≠
      .error ConfigurationError.configurationError := by
  exact ⟨rfl, by simp [getDailyWordE]⟩

/-- C5 as amended: if the word catalog is empty, getDailyWord returns
undefined (none) for every day key; no error is raised. -/
theorem c5_empty_catalog_returns_undefined (dk : DayKey) :
    getDailyWordE [] dk = .ok none := rfl

/-- C6: each of the three rejections returns the GameState unchanged:
a terminal game rejects every submission with GameAlreadyOver, a guess
of the wrong letter count is rejected with WrongLength, and a guess
outside the catalog is rejected with NotInCatalog. -/
theorem c6_rejections_leave_state_unchanged (catalog : List Word) (secret : Word)
    (s : GameState) (guess : Word) :
    (s.gameOver = true →
      submit catalog secret s guess = (.rejected .gameAlreadyOver, s)) ∧
    (s.gameOver = false → guess.length ≠ WORD_LENGTH →
      submit catalog secret s guess = (.rejected .wrongLength, s)) ∧
    (s.gameOver = false → guess.length = WORD_LENGTH → guess ∉ catalog →
      submit catalog secret s guess = (.rejected .notInCatalog, s)) := by
  refine ⟨fun h => ?_, fun h hl => ?_, fun h hl hm => ?_⟩
  · simp [submit, h]
  · simp [submit, h, hl]
  · simp [submit, h, hl, hm]

/-- Witness for C6 at concrete states and guesses. -/
theorem c6_witness :
    submit ["abcd".toList] "abcd".toList
      { attempts := ["abcd".toList], evaluations := [], currentRow := 1,
        gameOver := true, won := true } "abcd".toList =
      (.rejected .gameAlreadyOver,
        { attempts := ["abcd".toList], evaluations := [], currentRow := 1,
          gameOver := true, won := true }) ∧
    submit ["abcd".toList] "abcd".toList initialState "ab".toList =
      (.rejected .wrongLength, initialState) ∧
    submit ["abcd".toList] "abcd".toList initialState "zzzz".toList =
      (.rejected .notInCatalog, initialState) := by
  refine ⟨?_, ?_, ?_⟩
  · exact (c6_rejections_leave_state_unchanged _ _ _ _).1 rfl
  · exact (c6_rejections_leave_state_unchanged _ _ _ _).2.1 rfl (by decide)
  · exact (c6_rejections_leave_state_unchanged _ _ _ _).2.2 rfl rfl (by decide)

/-- C7: loadDailyState yields no prior state when storage is empty,
when the stored record cannot be parsed, and when the record's date
differs from today; it returns the stored record exactly when the
record parses and its date equals today. -/
theorem c7_load_fails_open (today : DayKey) (r : PersistRecord) :
    loadDailyState .empty today = none ∧
    loadDailyState .corrupt today = none ∧
    (r.date ≠ today → loadDailyState (.record r) today = none) ∧
    (r.date = today → loadDailyState (.record r) today = some r) ∧
    (∀ st res, loadDailyState st today = some res → st = .record res ∧ res.date = today) := by
  refine ⟨rfl, rfl, fun h => ?_, fun h => ?_, fun st res hres => ?_⟩
  · simp [loadDailyState, h]
  · simp [loadDailyState, h]
  · rcases st with _ | _ | r₂
    · exact absurd hres (by simp [loadDailyState])
    · exact absurd hres (by simp [loadDailyState])
    · by_cases hd : r₂.date = today
      · have : r₂ = res := by
          simpa [loadDailyState, hd] using hres
        subst this
        exact ⟨rfl, hd⟩
      · exact absurd hres (by simp [loadDailyState, hd])

/-- Witness for C7 at concrete records and dates. -/
theorem c7_witness :
    (loadDailyState (.record
        { date := { year := 2026, month := 10, day := 10 }, attempts := [],
          gameOver := false, won := false }) { year := 2026, month := 10, day := 11 } =
      none) ∧
    (loadDailyState (.record
        { date := { year := 2026, month := 10, day := 11 }, attempts := [],
          gameOver := false, won := false }) { year := 2026, month := 10, day := 11 } =
      some
        { date := { year := 2026, month := 10, day := 11 }, attempts := [],
          gameOver := false, won := false }) := by
  refine ⟨?_, ?_⟩
  · exact (c7_load_fails_open { year := 2026, month := 10, day := 11 } _).2.2.1 (by decide)
  · exact (c7_load_fails_open { year := 2026, month := 10, day := 11 } _).2.2.2.1 (by decide)

/-- JavaScript remainder on a nonnegative day count agrees with the
natural-number remainder. -/
lemma tmod_natCast (m n : Nat) :
    Int.tmod (m : Int) (n : Int) = ((m % n : Nat) : Int) := rfl

/-- On a nonnegative day count, getDailyWord indexes the catalog at the
day count modulo the catalog length. -/
lemma getDailyWord_eq_index (catalog : List Word) (dk : DayKey)
    (hne : catalog ≠ []) (h : 0 ≤ daysFromCivil dk) :
    getDailyWord catalog dk = catalog[(daysFromCivil dk).toNat % catalog.length]? := by
  have hlen : ¬(catalog.length = 0) := by
    simpa using hne
  obtain ⟨n, hn⟩ : ∃ n : Nat, daysFromCivil dk = (n : Int) :=
    ⟨(daysFromCivil dk).toNat, (Int.toNat_of_nonneg h).symm⟩
  unfold getDailyWord
  rw [if_neg hlen, hn, tmod_natCast]
  rw [if_neg (by exact not_lt.mpr (Int.natCast_nonneg _))]
  norm_cast

/-- C4: for every non-empty catalog and day key with a nonnegative
epoch-day count, the daily word is catalog[epochDay mod length]; the
selection is a pure function of catalog and day key, returns a word,
and two day keys with equal epoch-day-mod-length yield the same word. -/
theorem c4_daily_word_deterministic (catalog : List Word) (dk₁ dk₂ : DayKey)
    (hne : catalog ≠ [])
    (h1 : 0 ≤ daysFromCivil dk₁) (h2 : 0 ≤ daysFromCivil dk₂) :
    getDailyWord catalog dk₁ = catalog[(daysFromCivil dk₁).toNat % catalog.length]? ∧
    (∃ w, getDailyWord catalog dk₁ = some w) ∧
    ((daysFromCivil dk₁).toNat % catalog.length
        = (daysFromCivil dk₂).toNat % catalog.length →
      getDailyWord catalog dk₁ = getDailyWord catalog dk₂) := by
  have hpos : 0 < catalog.length := List.length_pos.mpr hne
  refine ⟨getDailyWord_eq_index catalog dk₁ hne h1, ?_, ?_⟩
  · rw [getDailyWord_eq_index catalog dk₁ hne h1]
    exact ⟨_, List.getElem?_eq_getElem (Nat.mod_lt _ hpos)⟩
  · intro hmod
    rw [getDailyWord_eq_index catalog dk₁ hne h1,
      getDailyWord_eq_index catalog dk₂ hne h2, hmod]

/-- Witness for C4: a two-word catalog and two day keys two days apart. -/
theorem c4_witness :
    getDailyWord ["abcd".toList, "wxyz".toList] { year := 2026, month := 10, day := 11 } =
      ["abcd".toList, "wxyz".toList][(daysFromCivil
        { year := 2026, month := 10, day := 11 }).toNat % 2]? ∧
    getDailyWord ["abcd".toList, "wxyz".toList] { year := 2026, month := 10, day := 11 } =
      getDailyWord ["abcd".toList, "wxyz".toList] { year := 2026, month := 10, day := 13 } := by
  have h := c4_daily_word_deterministic ["abcd".toList, "wxyz".toList]
    { year := 2026, month := 10, day := 11 } { year := 2026, month := 10, day := 13 }
    (by simp) (by decide) (by decide)
  exact ⟨h.1, h.2.2 (by decide)⟩

/-- The frequency map never counts the undefined key. -/
lemma buildFreq_none (secret : Word) : buildFreq secret none = 0 := by
  suffices h : ∀ (l : List Letter) (f : Option Letter → Int),
      (l.foldl (fun f c => fun x => if x = some c then f x + 1 else f x) f) none = f none by
    exact h secret _
  intro l
  induction l with
  | nil => intro f; rfl
  | cons a l ih =>
      intro f
      rw [List.foldl_cons, ih]
      simp

/-- The frequency map counts each letter's occurrences in the secret. -/
lemma buildFreq_some (secret : Word) (c : Letter) :
    buildFreq secret (some c) = (secret.count c : Int) := by
  suffices h : ∀ (l : List Letter) (f : Option Letter → Int),
      (l.foldl (fun f c => fun x => if x = some c then f x + 1 else f x) f) (some c)
        = f (some c) + (l.count c : Int) by
    simpa using h secret (fun _ => 0)
  intro l
  induction l with
  | nil => intro f; simp
  | cons a l ih =>
      intro f
      rw [List.foldl_cons, ih]
      by_cases hca : c = a
      · subst hca
        simp [List.count_cons]
        ring
      · simp [hca, List.count_cons, Ne.symm hca]

/-- The spec's pass 1 step written with the letters at an in-range
position. -/
lemma specPass1Step_eq (secret guess : Word) (j : Nat)
    (hjg : j < guess.length) (hjs : j < secret.length)
    (st : List Status × (Letter → Int)) :
    specPass1Step secret guess st j =
      if guess.get ⟨j, hjg⟩ = secret.get ⟨j, hjs⟩ then
        (st.1.set j Status.correct,
          fun c => if c = guess.get ⟨j, hjg⟩ then st.2 c - 1 else st.2 c)
      else st := by
  unfold specPass1Step
  rw [List.getElem?_eq_getElem hjg, List.getElem?_eq_getElem hjs]
  rfl

/-- The spec's pass 2 step written with the letter at an in-range
position. -/
lemma specPass2Step_eq (guess : Word) (j : Nat) (hjg : j < guess.length)
    (st : List Status × (Letter → Int)) :
    specPass2Step guess st j =
      if st.1[j]? = some Status.correct then st
      else if 0 < st.2 (guess.get ⟨j, hjg⟩) then
        (st.1.set j Status.present,
          fun c => if c = guess.get ⟨j, hjg⟩ then st.2 c - 1 else st.2 c)
      else st := by
  unfold specPass2Step
  rw [List.getElem?_eq_getElem hjg]
  rfl

/-- One step of the code's pass 1 simulates one step of the spec's
pass 1: equal result lists, frequency maps agreeing on every letter,
and a zero undefined key, are all preserved. -/
lemma pass1Step_sim (secret guess : Word) (hs : secret.length = WORD_LENGTH)
    (hg : guess.length = WORD_LENGTH) (j : Nat) (hj : j < WORD_LENGTH)
    (st1 : List Status × (Option Letter → Int)) (st2 : List Status × (Letter → Int))
    (e1 : st1.1 = st2.1) (e2 : ∀ c, st1.2 (some c) = st2.2 c) (e3 : st1.2 none = 0) :
    (pass1Step secret guess st1 j).1 = (specPass1Step secret guess st2 j).1 ∧
    (∀ c, (pass1Step secret guess st1 j).2 (some c) = (specPass1Step secret guess st2 j).2 c) ∧
    (pass1Step secret guess st1 j).2 none = 0 := by
  have hjg : j < guess.length := by omega
  have hjs : j < secret.length := by omega
  have hgj : guess[j]? = some (guess.get ⟨j, hjg⟩) := List.getElem?_eq_getElem hjg
  have hsj : secret[j]? = some (secret.get ⟨j, hjs⟩) := List.getElem?_eq_getElem hjs
  unfold pass1Step
  rw [hgj, hsj, specPass1Step_eq secret guess j hjg hjs]
  by_cases heq : guess.get ⟨j, hjg⟩ = secret.get ⟨j, hjs⟩
  · rw [if_pos (by rw [heq]), if_pos heq]
    refine ⟨by rw [e1], fun c => ?_, ?_⟩
    · simp only [decrKey]
      by_cases hc : c = guess.get ⟨j, hjg⟩
      · subst hc
        simp [e2]
      · simp [hc, e2, Option.some_inj.ne.mpr hc]
    · simp [decrKey, e3]
  · rw [if_neg (fun h => heq (Option.some_inj.mp h)), if_neg heq]
    exact ⟨e1, e2, e3⟩

/-- One step of the code's pass 2 simulates one step of the spec's
pass 2. -/
lemma pass2Step_sim (guess : Word) (hg : guess.length = WORD_LENGTH)
    (j : Nat) (hj : j < WORD_LENGTH)
    (st1 : List Status × (Option Letter → Int)) (st2 : List Status × (Letter → Int))
    (e1 : st1.1 = st2.1) (e2 : ∀ c, st1.2 (some c) = st2.2 c) (e3 : st1.2 none = 0) :
    (pass2Step guess st1 j).1 = (specPass2Step guess st2 j).1 ∧
    (∀ c, (pass2Step guess st1 j).2 (some c) = (specPass2Step guess st2 j).2 c) ∧
    (pass2Step guess st1 j).2 none = 0 := by
  have hjg : j < guess.length := by omega
  have hgj : guess[j]? = some (guess.get ⟨j, hjg⟩) := List.getElem?_eq_getElem hjg
  unfold pass2Step
  rw [hgj, e1, specPass2Step_eq guess j hjg]
  by_cases hcor : st2.1[j]? = some Status.correct
  · rw [if_pos hcor, if_pos hcor]
    exact ⟨e1, e2, e3⟩
  · rw [if_neg hcor, if_neg hcor]
    by_cases hpos : 0 < st2.2 (guess.get ⟨j, hjg⟩)
    · rw [if_pos (by rw [e2]; exact hpos), if_pos hpos]
      refine ⟨rfl, fun c => ?_, ?_⟩
      · simp only [decrKey]
        by_cases hc : c = guess.get ⟨j, hjg⟩
        · subst hc
          simp [e2]
        · simp [hc, e2, Option.some_inj.ne.mpr hc]
      · simp [decrKey, e3]
    · rw [if_neg (by rw [e2]; exact hpos), if_neg hpos]
      exact ⟨e1, e2, e3⟩

/-- The code's pass 1 loop simulates the spec's pass 1 loop. -/
lemma foldl_pass1_sim (secret guess : Word) (hs : secret.length = WORD_LENGTH)
    (hg : guess.length = WORD_LENGTH) (l : List Nat) (hl : ∀ j ∈ l, j < WORD_LENGTH)
    (st1 : List Status × (Option Letter → Int)) (st2 : List Status × (Letter → Int))
    (e1 : st1.1 = st2.1) (e2 : ∀ c, st1.2 (some c) = st2.2 c) (e3 : st1.2 none = 0) :
    (l.foldl (pass1Step secret guess) st1).1
        = (l.foldl (specPass1Step secret guess) st2).1 ∧
    (∀ c, (l.foldl (pass1Step secret guess) st1).2 (some c)
        = (l.foldl (specPass1Step secret guess) st2).2 c) ∧
    (l.foldl (pass1Step secret guess) st1).2 none = 0 := by
  induction l generalizing st1 st2 with
  | nil => exact ⟨e1, e2, e3⟩
  | cons j l ih =>
      rw [List.foldl_cons, List.foldl_cons]
      have hstep := pass1Step_sim secret guess hs hg j
        (hl j (List.mem_cons_self _ _)) st1 st2 e1 e2 e3
      exact ih (fun x hx => hl x (List.mem_cons_of_mem _ hx)) _ _
        hstep.1 hstep.2.1 hstep.2.2

/-- The code's pass 2 loop simulates the spec's pass 2 loop. -/
lemma foldl_pass2_sim (guess : Word) (hg : guess.length = WORD_LENGTH)
    (l : List Nat) (hl : ∀ j ∈ l, j < WORD_LENGTH)
    (st1 : List Status × (Option Letter → Int)) (st2 : List Status × (Letter → Int))
    (e1 : st1.1 = st2.1) (e2 : ∀ c, st1.2 (some c) = st2.2 c) (e3 : st1.2 none = 0) :
    (l.foldl (pass2Step guess) st1).1 = (l.foldl (specPass2Step guess) st2).1 ∧
    (∀ c, (l.foldl (pass2Step guess) st1).2 (some c)
        = (l.foldl (specPass2Step guess) st2).2 c) ∧
    (l.foldl (pass2Step guess) st1).2 none = 0 := by
  induction l generalizing st1 st2 with
  | nil => exact ⟨e1, e2, e3⟩
  | cons j l ih =>
      rw [List.foldl_cons, List.foldl_cons]
      have hstep := pass2Step_sim guess hg j
        (hl j (List.mem_cons_self _ _)) st1 st2 e1 e2 e3
      exact ih (fun x hx => hl x (List.mem_cons_of_mem _ hx)) _ _
        hstep.1 hstep.2.1 hstep.2.2

/-- C1: for every guess and secret word of length N = 4, evaluateGuess
computes exactly the spec's two-pass reference algorithm: exact matches
are marked correct against the secret's letter multiset, then the
remaining positions, left to right, are marked present exactly while
the letter's remaining count is positive, pass 1 entirely preceding
pass 2. -/
theorem c1_evaluate_matches_reference (secret guess : Word)
    (hs : secret.length = WORD_LENGTH) (hg : guess.length = WORD_LENGTH) :
    evaluateGuess secret guess = evaluateSpec secret guess := by
  unfold evaluateGuess evaluateSpec
  have h1 := foldl_pass1_sim secret guess hs hg (List.range WORD_LENGTH)
    (fun j hj => List.mem_range.mp hj)
    (List.replicate WORD_LENGTH Status.absent, buildFreq secret)
    (List.replicate WORD_LENGTH Status.absent, specMultiset secret)
    rfl (fun c => buildFreq_some secret c) (buildFreq_none secret)
  have h2 := foldl_pass2_sim guess hg (List.range WORD_LENGTH)
    (fun j hj => List.mem_range.mp hj) _ _ h1.1 h1.2.1 h1.2.2
  exact h2.1

/-- Witness for C1: a guess with repeated letters against a secret with
a duplicated letter. -/
theorem c1_witness :
    ("aabc".toList : Word).length = WORD_LENGTH ∧
    ("aaxa".toList : Word).length = WORD_LENGTH ∧
    evaluateGuess "aabc".toList "aaxa".toList = evaluateSpec "aabc".toList "aaxa".toList := by
  refine ⟨by decide, by decide, ?_⟩
  exact c1_evaluate_matches_reference "aabc".toList "aaxa".toList (by decide) (by decide)

/-- Pass 1 never changes the length of the result list. -/
lemma foldl_pass1_length (secret guess : Word) (l : List Nat)
    (st : List Status × (Option Letter → Int)) :
    ((l.foldl (pass1Step secret guess) st).1).length = st.1.length := by
  induction l generalizing st with
  | nil => rfl
  | cons j l ih =>
      rw [List.foldl_cons, ih]
      unfold pass1Step
      split <;> simp

/-- Pass 2 never changes the length of the result list. -/
lemma foldl_pass2_length (guess : Word) (l : List Nat)
    (st : List Status × (Option Letter → Int)) :
    ((l.foldl (pass2Step guess) st).1).length = st.1.length := by
  induction l generalizing st with
  | nil => rfl
  | cons j l ih =>
      rw [List.foldl_cons, ih]
      unfold pass2Step
      split
      · rfl
      · split <;> simp

/-- Pass 1 keeps positions at or beyond the guess length absent and the
undefined frequency key at 0, provided the secret has full length. -/
lemma pass1_preserves_absent (secret guess : Word) (hs : secret.length = WORD_LENGTH)
    (l : List Nat) (hl : ∀ j ∈ l, j < WORD_LENGTH)
    (st : List Status × (Option Letter → Int))
    (h1 : ∀ i, guess.length ≤ i → i < WORD_LENGTH → st.1[i]? = some Status.absent)
    (h2 : st.2 none = 0) :
    (∀ i, guess.length ≤ i → i < WORD_LENGTH →
      (l.foldl (pass1Step secret guess) st).1[i]? = some Status.absent) ∧
    (l.foldl (pass1Step secret guess) st).2 none = 0 := by
  induction l generalizing st with
  | nil => exact ⟨h1, h2⟩
  | cons j l ih =>
      rw [List.foldl_cons]
      have hj4 : j < WORD_LENGTH := hl j (List.mem_cons_self _ _)
      have hstep :
          (∀ i, guess.length ≤ i → i < WORD_LENGTH →
            (pass1Step secret guess st j).1[i]? = some Status.absent) ∧
          (pass1Step secret guess st j).2 none = 0 := by
        unfold pass1Step
        split
        case isTrue heq =>
          have hjg : j < guess.length := by
            by_contra hno
            push_neg at hno
            rw [List.getElem?_eq_none_iff.mpr hno,
              List.getElem?_eq_getElem (by omega : j < secret.length)] at heq
            exact Option.noConfusion heq
          refine ⟨fun i hi1 hi2 => ?_, ?_⟩
          · rw [List.getElem?_set_ne (by omega : j ≠ i)]
            exact h1 i hi1 hi2
          · have hg : guess[j]? = some (guess.get ⟨j, hjg⟩) :=
              List.getElem?_eq_getElem hjg
            simp only [decrKey, hg]
            simp [h2]
        case isFalse => exact ⟨h1, h2⟩
      exact ih (fun x hx => hl x (List.mem_cons_of_mem _ hx)) _ hstep.1 hstep.2

/-- Pass 2 keeps positions at or beyond the guess length absent and the
undefined frequency key at 0. -/
lemma pass2_preserves_absent (guess : Word)
    (l : List Nat) (hl : ∀ j ∈ l, j < WORD_LENGTH)
    (st : List Status × (Option Letter → Int))
    (h1 : ∀ i, guess.length ≤ i → i < WORD_LENGTH → st.1[i]? = some Status.absent)
    (h2 : st.2 none = 0) :
    (∀ i, guess.length ≤ i → i < WORD_LENGTH →
      (l.foldl (pass2Step guess) st).1[i]? = some Status.absent) ∧
    (l.foldl (pass2Step guess) st).2 none = 0 := by
  induction l generalizing st with
  | nil => exact ⟨h1, h2⟩
  | cons j l ih =>
      rw [List.foldl_cons]
      have hstep :
          (∀ i, guess.length ≤ i → i < WORD_LENGTH →
            (pass2Step guess st j).1[i]? = some Status.absent) ∧
          (pass2Step guess st j).2 none = 0 := by
        unfold pass2Step
        split
        · exact ⟨h1, h2⟩
        · split
          case isTrue hpos =>
            have hjg : j < guess.length := by
              by_contra hno
              push_neg at hno
              rw [List.getElem?_eq_none_iff.mpr hno] at hpos
              rw [h2] at hpos
              exact absurd hpos (by omega)
            refine ⟨fun i hi1 hi2 => ?_, ?_⟩
            · rw [List.getElem?_set_ne (by omega : j ≠ i)]
              exact h1 i hi1 hi2
            · have hg : guess[j]? = some (guess.get ⟨j, hjg⟩) :=
                List.getElem?_eq_getElem hjg
              simp only [decrKey, hg]
              simp [h2]
          case isFalse => exact ⟨h1, h2⟩
      exact ih (fun x hx => hl x (List.mem_cons_of_mem _ hx)) _ hstep.1 hstep.2

/-- C9: evaluateGuess is total over arbitrary guess strings: whatever
the guess's length, the result has exactly WORD_LENGTH statuses, and
every position at or beyond the guess's length comes out absent. -/
theorem c9_evaluate_total (secret guess : Word) (hs : secret.length = WORD_LENGTH) :
    (evaluateGuess secret guess).length = WORD_LENGTH ∧
    (∀ i, guess.length ≤ i → i < WORD_LENGTH →
      (evaluateGuess secret guess)[i]? = some Status.absent) := by
  constructor
  · unfold evaluateGuess
    rw [foldl_pass2_length, foldl_pass1_length]
    simp
  · intro i hi1 hi2
    unfold evaluateGuess
    have hinit : ∀ i, guess.length ≤ i → i < WORD_LENGTH →
        (List.replicate WORD_LENGTH Status.absent)[i]? = some Status.absent := by
      intro i _ h
      simp [List.getElem?_replicate, h]
    have h1 := pass1_preserves_absent secret guess hs (List.range WORD_LENGTH)
      (fun j hj => List.mem_range.mp hj)
      (List.replicate WORD_LENGTH Status.absent, buildFreq secret)
      hinit (buildFreq_none secret)
    have h2 := pass2_preserves_absent guess (List.range WORD_LENGTH)
      (fun j hj => List.mem_range.mp hj) _ h1.1 h1.2
    exact h2.1 i hi1 hi2

/-- Witness for C9: a two-letter guess against a four-letter secret. -/
theorem c9_witness :
    ("abcd".toList : Word).length = WORD_LENGTH ∧
    (evaluateGuess "abcd".toList "ab".toList).length = WORD_LENGTH ∧
    (evaluateGuess "abcd".toList "ab".toList)[2]? = some Status.absent := by
  refine ⟨by decide, ?_, ?_⟩
  · exact (c9_evaluate_total "abcd".toList "ab".toList (by decide)).1
  · exact (c9_evaluate_total "abcd".toList "ab".toList (by decide)).2 2 (by decide) (by decide)

/-- The invariant holds in the fresh state. -/
lemma inv_initialState (secret : Word) : Inv secret initialState := by
  refine ⟨rfl, rfl, by decide, ?_, ?_⟩ <;>
    simp [initialState, lastAllCorrect, MAX_ATTEMPTS]

/-- C3: an accepted submission (game not over, guess of length N in the
catalog) appends the guess and its evaluation, becomes Won exactly when
the evaluation is all-correct, otherwise Lost exactly when the attempt
count reaches MAX_ATTEMPTS, and preserves the GameState invariant. -/
theorem c3_accepted_submission (catalog : List Word) (secret : Word)
    (s : GameState) (guess : Word)
    (hgo : s.gameOver = false) (hlen : guess.length = WORD_LENGTH)
    (hmem : guess ∈ catalog) (hinv : Inv secret s) :
    (submit catalog secret s guess).1 = .accepted (evaluateGuess secret guess) ∧
    (submit catalog secret s guess).2.attempts = s.attempts ++ [guess] ∧
    (submit catalog secret s guess).2.evaluations
        = s.evaluations ++ [evaluateGuess secret guess] ∧
    (submit catalog secret s guess).2.gameOver
        = (allCorrect (evaluateGuess secret guess)
            || (s.attempts.length + 1 == MAX_ATTEMPTS)) ∧
    (submit catalog secret s guess).2.won = allCorrect (evaluateGuess secret guess) ∧
    Inv secret (submit catalog secret s guess).2 := by
  obtain ⟨hrow, hevals, hle, hover, hwon⟩ := hinv
  have hwonf : s.won = false := by
    cases hws : s.won
    · rfl
    · have h1 := (hwon.mp hws).1
      rw [hgo] at h1
      exact absurd h1 (by simp)
  have hlt : s.attempts.length < MAX_ATTEMPTS := by
    rcases lt_or_eq_of_le hle with h | h
    · exact h
    · exfalso
      have h1 := hover.mpr (Or.inr h)
      rw [hgo] at h1
      exact absurd h1 (by simp)
  have hlast : (s.evaluations ++ [evaluateGuess secret guess]).getLast?
      = some (evaluateGuess secret guess) := by simp
  by_cases hac : allCorrect (evaluateGuess secret guess) = true
  · have hsub : submit catalog secret s guess =
        (.accepted (evaluateGuess secret guess),
          { attempts := s.attempts ++ [guess],
            evaluations := s.evaluations ++ [evaluateGuess secret guess],
            currentRow := s.currentRow + 1, gameOver := true, won := true }) := by
      simp [submit, hgo, hlen, hmem, hac]
    rw [hsub]
    refine ⟨rfl, rfl, rfl, by simp [hac], by simp [hac], ?_, ?_, ?_, ?_, ?_⟩
    · simp [hrow]
    · simp [hevals]
    · simp
      omega
    · simp [lastAllCorrect, hlast, hac]
    · simp [lastAllCorrect, hlast, hac]
  · by_cases hmax : MAX_ATTEMPTS ≤ s.currentRow + 1
    · have hfull : s.attempts.length + 1 = MAX_ATTEMPTS := by omega
      have hsub : submit catalog secret s guess =
          (.accepted (evaluateGuess secret guess),
            { attempts := s.attempts ++ [guess],
              evaluations := s.evaluations ++ [evaluateGuess secret guess],
              currentRow := s.currentRow + 1, gameOver := true, won := false }) := by
        simp [submit, hgo, hlen, hmem, hac, hmax]
      rw [hsub]
      refine ⟨rfl, rfl, rfl, by simp [hac, hfull], by simp [hac], ?_, ?_, ?_, ?_, ?_⟩
      · simp [hrow]
      · simp [hevals]
      · simp
        omega
      · simp [lastAllCorrect, hlast, hfull]
      · simp [lastAllCorrect, hlast, hac]
    · have hnotfull : s.attempts.length + 1 ≠ MAX_ATTEMPTS := by omega
      have hsub : submit catalog secret s guess =
          (.accepted (evaluateGuess secret guess),
            { attempts := s.attempts ++ [guess],
              evaluations := s.evaluations ++ [evaluateGuess secret guess],
              currentRow := s.currentRow + 1, gameOver := s.gameOver, won := s.won }) := by
        simp [submit, hgo, hlen, hmem, hac, hmax]
      rw [hsub]
      refine ⟨rfl, rfl, rfl, by simp [hgo, hac, hnotfull], by simp [hwonf, hac], ?_, ?_, ?_, ?_, ?_⟩
      · simp [hrow]
      · simp [hevals]
      · simp
        omega
      · simp [lastAllCorrect, hlast, hgo, hac, hnotfull]
      · simp [lastAllCorrect, hlast, hgo, hwonf]

/-- Witness for C3: submitting the secret itself from the fresh state. -/
theorem c3_witness :
    (submit ["abcd".toList] "abcd".toList initialState "abcd".toList).1
        = .accepted (evaluateGuess "abcd".toList "abcd".toList) ∧
    (submit ["abcd".toList] "abcd".toList initialState "abcd".toList).2.won = true ∧
    Inv "abcd".toList (submit ["abcd".toList] "abcd".toList initialState "abcd".toList).2 := by
  have h := c3_accepted_submission ["abcd".toList] "abcd".toList initialState
    "abcd".toList rfl (by decide) (by decide) (inv_initialState _)
  refine ⟨h.1, ?_, h.2.2.2.2.2⟩
  rw [h.2.2.2.2.1]
  decide

/-- C10: every hint click whose incremented counter exceeds
HINT_MAGIC_NUMBER resets the counter to 0 and shows a toast whose text
contains the secret word, regardless of whether the game is over. -/
theorem c10_hint_click_reveals_secret (secretWord : Word) (c : Nat)
    (h : HINT_MAGIC_NUMBER < c + 1) :
    (handleHintClick secretWord c).1 = 0 ∧
    (handleHintClick secretWord c).2 = Toast.reveal (revealMsg secretWord) ∧
    secretWord <:+ revealMsg secretWord := by
  have hne : ¬(c + 1 = HINT_MAGIC_NUMBER) := by omega
  refine ⟨?_, ?_, List.suffix_append _ _⟩ <;>
    simp [handleHintClick, hne, h]

/-- Witness for C10 at the 19th click. -/
theorem c10_witness :
    HINT_MAGIC_NUMBER < 18 + 1 ∧
    (handleHintClick "abcd".toList 18).1 = 0 ∧
    (handleHintClick "abcd".toList 18).2 = Toast.reveal (revealMsg "abcd".toList) := by
  refine ⟨by decide, ?_, ?_⟩
  · exact (c10_hint_click_reveals_secret "abcd".toList 18 (by decide)).1
  · exact (c10_hint_click_reveals_secret "abcd".toList 18 (by decide)).2.1

end Urdle
